import Mathlib

/-!
Verification development for the GitHub AI Navigator server
(src/server/server.py). The Python source is shallowly embedded below:
strings are modelled as Lean strings (character lists for the scanning
code), the SQLite tables as Lean lists of rows, and the external
collaborators (git retrieval, OpenAI summarization, store failures) as
explicit oracle parameters. ASCII character classes model the Python
regex classes, which is exact on the ASCII inputs considered here.
-/

namespace RepoAnalyser

/-! ## Character classes (Python `\s`, `\w`, identifier start) -/

/-- ASCII whitespace, as in Python regex `\s` and `str.strip`. -/
def isPyWs (c : Char) : Bool :=
  c == ' ' || c == '\t' || c == '\n' || c == '\r' || c == '\x0b' || c == '\x0c'

/-- Python regex `\w` over ASCII: letters, digits, underscore. -/
def isWordChar (c : Char) : Bool := c.isAlphanum || c == '_'

/-- First character of `[A-Za-z_]\w*` in the extraction patterns. -/
def isIdentStart (c : Char) : Bool := c.isAlpha || c == '_'

/-- Drop leading whitespace (regex `\s*` / left part of `str.strip`). -/
def dropWs (cs : List Char) : List Char := cs.dropWhile isPyWs

/-- Python `str.strip()`: remove leading and trailing whitespace. -/
def stripChars (cs : List Char) : List Char :=
  ((cs.dropWhile isPyWs).reverse.dropWhile isPyWs).reverse

/-! ## Small deterministic parsers used to embed the regex patterns -/

/-- Match a literal character sequence, returning the remainder. -/
def expectLit : List Char → List Char → Option (List Char)
  | [], cs => some cs
  | _ :: _, [] => none
  | l :: ls, c :: cs => if c = l then expectLit ls cs else none

/-- Match one expected character. -/
def expectChar (x : Char) : List Char → Option (List Char)
  | [] => none
  | c :: cs => if c = x then some cs else none

/-- Regex `\s+`: at least one whitespace character, consumed greedily. -/
def wsPlus : List Char → Option (List Char)
  | [] => none
  | c :: cs => if isPyWs c then some (cs.dropWhile isPyWs) else none

/-- Regex `([A-Za-z_]\w*)`: the captured identifier and the remainder. -/
def identTok : List Char → Option (List Char × List Char)
  | [] => none
  | c :: cs =>
    if isIdentStart c then some (c :: cs.takeWhile isWordChar, cs.dropWhile isWordChar)
    else none

/-- Regex `\([^)]*\)`: a parenthesis group with no close paren inside. -/
def parens (cs : List Char) : Option (List Char) :=
  (expectChar '(' cs).bind fun r =>
    expectChar ')' (r.dropWhile fun x => !(x == ')'))

/-- Regex `(?:\([^)]*\))?`: optional parenthesis group. -/
def optParens (cs : List Char) : Option (List Char) :=
  match cs with
  | '(' :: _ => parens cs
  | _ => some cs

/-! ## The extraction patterns of `extract_functions_from_code` -/

def kwDef : List Char := ['d', 'e', 'f']
def kwClass : List Char := ['c', 'l', 'a', 's', 's']
def kwAsync : List Char := ['a', 's', 'y', 'n', 'c']
def kwFunction : List Char := ['f', 'u', 'n', 'c', 't', 'i', 'o', 'n']
def kwConst : List Char := ['c', 'o', 'n', 's', 't']
def kwLet : List Char := ['l', 'e', 't']
def kwVar : List Char := ['v', 'a', 'r']
def litArrow : List Char := ['=', '>']

/-- Python pattern `^\s*def\s+([A-Za-z_]\w*)\s*\([^)]*\)\s*:`. -/
def pyDefPat (s : List Char) : Option (List Char) :=
  (expectLit kwDef (dropWs s)).bind fun r1 =>
  (wsPlus r1).bind fun r2 =>
  (identTok r2).bind fun pr =>
  (parens (dropWs pr.2)).bind fun r4 =>
  (expectChar ':' (dropWs r4)).map fun _ => pr.1

/-- Python pattern `^\s*class\s+([A-Za-z_]\w*)\s*(?:\([^)]*\))?\s*:`. -/
def pyClassPat (s : List Char) : Option (List Char) :=
  (expectLit kwClass (dropWs s)).bind fun r1 =>
  (wsPlus r1).bind fun r2 =>
  (identTok r2).bind fun pr =>
  (optParens (dropWs pr.2)).bind fun r4 =>
  (expectChar ':' (dropWs r4)).map fun _ => pr.1

/-- Python pattern `^\s*async\s+def\s+([A-Za-z_]\w*)\s*\([^)]*\)\s*:`. -/
def pyAsyncPat (s : List Char) : Option (List Char) :=
  (expectLit kwAsync (dropWs s)).bind fun r0 =>
  (wsPlus r0).bind fun r1 =>
  (expectLit kwDef r1).bind fun r2 =>
  (wsPlus r2).bind fun r3 =>
  (identTok r3).bind fun pr =>
  (parens (dropWs pr.2)).bind fun r4 =>
  (expectChar ':' (dropWs r4)).map fun _ => pr.1

/-- JS pattern `^\s*function\s+([A-Za-z_]\w*)\s*\([^)]*\)\s*\x7b`. -/
def jsFunctionPat (s : List Char) : Option (List Char) :=
  (expectLit kwFunction (dropWs s)).bind fun r1 =>
  (wsPlus r1).bind fun r2 =>
  (identTok r2).bind fun pr =>
  (parens (dropWs pr.2)).bind fun r4 =>
  (expectChar '\x7b' (dropWs r4)).map fun _ => pr.1

/-- The alternation `(?:const|let|var)` at the start of the arrow pattern. -/
def kwCLV (cs : List Char) : Option (List Char) :=
  match expectLit kwConst cs with
  | some r => some r
  | none =>
    match expectLit kwLet cs with
    | some r => some r
    | none => expectLit kwVar cs

/-- JS pattern `^\s*(?:const|let|var)\s+([A-Za-z_]\w*)\s*=\s*\([^)]*\)\s*=>`. -/
def jsArrowPat (s : List Char) : Option (List Char) :=
  (kwCLV (dropWs s)).bind fun r1 =>
  (wsPlus r1).bind fun r2 =>
  (identTok r2).bind fun pr =>
  (expectChar '=' (dropWs pr.2)).bind fun r3 =>
  (parens (dropWs r3)).bind fun r4 =>
  (expectLit litArrow (dropWs r4)).map fun _ => pr.1

/-- JS pattern `^\s*([A-Za-z_]\w*)\s*\([^)]*\)\s*\x7b` (method shorthand). -/
def jsMethodPat (s : List Char) : Option (List Char) :=
  (identTok (dropWs s)).bind fun pr =>
  (parens (dropWs pr.2)).bind fun r =>
  (expectChar '\x7b' (dropWs r)).map fun _ => pr.1

/-- JS pattern `^\s*class\s+([A-Za-z_]\w*)\b`. The trailing `\b` always
holds after the greedy capture, so it imposes no extra condition. -/
def jsClassPat (s : List Char) : Option (List Char) :=
  (expectLit kwClass (dropWs s)).bind fun r1 =>
  (wsPlus r1).bind fun r2 =>
  (identTok r2).map fun pr => pr.1

/-- The `python_patterns` list, in source order. -/
def pyPatterns : List (List Char → Option (List Char)) :=
  [pyDefPat, pyClassPat, pyAsyncPat]

/-- The `js_patterns` list, in source order. -/
def jsPatterns : List (List Char → Option (List Char)) :=
  [jsFunctionPat, jsArrowPat, jsMethodPat, jsClassPat]

/-! ## The extractor -/

/-- One candidate produced by `extract_functions_from_code`. -/
structure ExtractedFunc where
  name : String
  code : String
  line_number : Nat
deriving DecidableEq

/-- Python `code.split('\n')`. -/
def splitNl : List Char → List (List Char)
  | [] => [[]]
  | c :: rest =>
    if c == '\n' then [] :: splitNl rest
    else
      match splitNl rest with
      | [] => [[c]]
      | w :: ws => (c :: w) :: ws

/-- Python `'\n'.join(...)` on character lists. -/
def joinNl : List (List Char) → List Char
  | [] => []
  | [l] => l
  | l :: ls => l ++ '\n' :: joinNl ls

/-- Pair every element with its index, as Python `enumerate`. -/
def enumFrom (i : Nat) : List α → List (Nat × α)
  | [] => []
  | x :: xs => (i, x) :: enumFrom (i + 1) xs

/-- Concatenate the images of a list-valued function. -/
def concatMap (f : α → List β) : List α → List β
  | [] => []
  | x :: xs => f x ++ concatMap f xs

/-- Python `str.endswith` on the file path. -/
def strEndsWith (s suffix : String) : Bool :=
  suffix.data.reverse.isPrefixOf s.data.reverse

/-- The pattern list chosen from the file extension. -/
def patternsFor (file_path : String) : List (List Char → Option (List Char)) :=
  if strEndsWith file_path ".py" then pyPatterns else jsPatterns

/-- The candidate built for a match of name `nm` on line index `i`. -/
def mkCand (lines : List (List Char)) (i : Nat) (nm : List Char) : ExtractedFunc :=
  { name := String.mk nm
    code := String.mk (joinNl ((lines.drop i).take 50))
    line_number := i + 1 }

/-- Embedding of `extract_functions_from_code`: for each line each
pattern is tried in source order, and each match appends one candidate
(the Python loop has no break). -/
def extract_functions_from_code (code file_path : String) : List ExtractedFunc :=
  let patterns := patternsFor file_path
  let lines := splitNl code.data
  concatMap
    (fun pr => patterns.filterMap fun p => (p (stripChars pr.2)).map (mkCand lines pr.1))
    (enumFrom 0 lines)

/-- First pattern of a list that matches, with its captured name. -/
def firstSome (pats : List (List Char → Option (List Char))) (s : List Char) :
    Option (List Char) :=
  match pats with
  | [] => none
  | p :: ps =>
    match p s with
    | some r => some r
    | none => firstSome ps s

/-! ## Runs of characters: Python `re.findall(r'\b\w+\b', ...)` and `str.split()` -/

/-- Structural worker for `runsOf`; the fuel strictly exceeds the number
of characters still to scan, and at least one character is consumed per
step, so the zero-fuel case is unreachable from `runsOf`. -/
def runsOfAux (keep : Char → Bool) : Nat → List Char → List (List Char)
  | 0, _ => []
  | _ + 1, [] => []
  | fuel + 1, c :: rest =>
    if keep c then
      (c :: rest.takeWhile keep) :: runsOfAux keep fuel (rest.dropWhile keep)
    else runsOfAux keep fuel rest

/-- Maximal runs of characters satisfying `keep`; used both for the
keyword word list and for whitespace splitting of queries. -/
def runsOf (keep : Char → Bool) (cs : List Char) : List (List Char) :=
  runsOfAux keep cs.length cs

/-- Python `str.lower()` (ASCII model). -/
def lowerStr (s : String) : String := String.mk (s.data.map Char.toLower)

/-- Joining strings with a separator, as Python `sep.join(...)`. -/
def joinSep (sep : String) : List String → String
  | [] => ""
  | [x] => x
  | x :: xs => x ++ sep ++ joinSep sep xs

/-- Starts-with check on character lists. -/
def startsList : List Char → List Char → Bool
  | [], _ => true
  | _ :: _, [] => false
  | a :: as, b :: bs => a == b && startsList as bs

/-- Contiguous-occurrence check: `needle` occurs inside `hay`. -/
def containsSub (needle : List Char) : List Char → Bool
  | [] => needle.isEmpty
  | c :: cs => startsList needle (c :: cs) || containsSub needle cs

/-! ## The summarizer gateway (`summarize_with_openai`) -/

/-- Outcome of the OpenAI collaborator environment for one call: no API
key configured, client construction failed, the API call raised, or the
API returned a message text. -/
inductive SummarizerOutcome where
  | noKey
  | clientInitFailed
  | apiError (msg : String)
  | okText (text : String)
deriving DecidableEq

def SummarizerOutcome.isFailure : SummarizerOutcome → Bool
  | .okText _ => false
  | _ => true

/-- The truncation applied before the API call: `content[:8000]` plus the
truncation marker when the content exceeds 8000 characters. -/
def truncateContent (content : String) : String :=
  if content.length > 8000 then
    String.mk (content.data.take 8000) ++ "\n... (content truncated)"
  else content

/-- The fixed marker phrase present in every fallback string. -/
def fallbackMarker : String := "AI analysis"

/-- Embedding of `summarize_with_openai`. Every failure path of the
source resolves to a returned fallback string; the function is total, so
it never raises. The `apiError` branch reports the length of the
already-truncated content, exactly as the source f-string does after the
reassignment of `content`. -/
def summarize_with_openai (content context : String) (o : SummarizerOutcome) : String :=
  match o with
  | .noKey =>
    "Summary of " ++ context ++ ": Content length: " ++ Nat.repr content.length ++
      " characters. AI analysis unavailable - API key not configured."
  | .clientInitFailed =>
    "Summary of " ++ context ++ ": Content length: " ++ Nat.repr content.length ++
      " characters. AI analysis unavailable - client initialization failed."
  | .apiError msg =>
    "Summary of " ++ context ++ ": Content processed (" ++
      Nat.repr (truncateContent content).length ++
      " characters). AI analysis failed: " ++ msg
  | .okText text => String.mk (stripChars text.data)

/-! ## Data model: the two SQLite tables -/

/-- One row of `repo_summaries`. -/
structure RepoRow where
  username : String
  repo_url : String
  repo_name : String
  tree_structure : String
  repo_summary : String
  is_favorite : Bool
  created_at : Nat
  updated_at : Nat
deriving DecidableEq

/-- One row of `function_summaries`. -/
structure FuncRow where
  repo_url : String
  file_path : String
  function_name : String
  function_code : String
  function_summary : String
  keywords : String
  created_at : Nat
deriving DecidableEq

/-- The database state: both tables. -/
structure DB where
  repos : List RepoRow
  funcs : List FuncRow
deriving DecidableEq

/-- The identity-key test `username = ? AND repo_url = ?`. -/
def keyIs (username repo_url : String) (r : RepoRow) : Bool :=
  r.username == username && r.repo_url == repo_url

/-- Pairwise distinctness of identity keys over the repository table:
the invariant enforced by the schema constraint `UNIQUE(username,
repo_url)`. -/
def distinctKeys : List RepoRow → Bool
  | [] => true
  | r :: rs => rs.all (fun r2 => !keyIs r.username r.repo_url r2) && distinctKeys rs

/-- `SELECT ... WHERE username = ? AND repo_url = ?` with `fetchone`. -/
def findRepo (username repo_url : String) : List RepoRow → Option RepoRow
  | [] => none
  | r :: rs => if keyIs username repo_url r then some r else findRepo username repo_url rs

/-- The SQL `UPDATE repo_summaries SET ... WHERE username = ? AND
repo_url = ?`: every matching row is updated in place. -/
def updateRepoRows (username repo_url repo_name tree_structure repo_summary : String)
    (now : Nat) : List RepoRow → List RepoRow
  | [] => []
  | r :: rs =>
    (if keyIs username repo_url r then
      { r with repo_name := repo_name, tree_structure := tree_structure,
               repo_summary := repo_summary, updated_at := now }
     else r) :: updateRepoRows username repo_url repo_name tree_structure repo_summary now rs

/-- Embedding of `store_repository_data`: update the existing row for
the identity key, or insert one new row. -/
def store_repository_data (username repo_url repo_name tree_structure repo_summary : String)
    (now : Nat) (db : DB) : DB :=
  match findRepo username repo_url db.repos with
  | some _ =>
    { db with repos := (updateRepoRows username repo_url repo_name tree_structure
        repo_summary now db.repos) }
  | none =>
    { db with repos := db.repos ++
        [{ username := username, repo_url := repo_url, repo_name := repo_name,
           tree_structure := tree_structure, repo_summary := repo_summary,
           is_favorite := false, created_at := now, updated_at := now }] }

/-- The derived keyword text of `store_function_data`:
`' '.join([function_name.lower()] + re.findall(r'\b\w+\b', function_summary.lower()))`. -/
def keywordsOf (function_name function_summary : String) : String :=
  joinSep " "
    ([lowerStr function_name] ++
      (runsOf isWordChar (lowerStr function_summary).data).map String.mk)

/-- The row inserted by `store_function_data`. -/
def mkFuncRow (repo_url file_path function_name function_code function_summary : String)
    (now : Nat) : FuncRow :=
  { repo_url := repo_url, file_path := file_path, function_name := function_name,
    function_code := function_code, function_summary := function_summary,
    keywords := keywordsOf function_name function_summary, created_at := now }

/-- Embedding of `store_function_data` in its successful case: a plain
INSERT, with no deletion of earlier rows for the same `repo_url`. -/
def store_function_data (repo_url file_path function_name function_code function_summary : String)
    (now : Nat) (db : DB) : DB :=
  { db with funcs := db.funcs ++
      [mkFuncRow repo_url file_path function_name function_code function_summary now] }

/-! ## Keyword search (`search_functions`) -/

/-- The projection `SELECT function_name, file_path, function_summary,
function_code` returned by the search queries. -/
structure SearchHit where
  function_name : String
  file_path : String
  function_summary : String
  function_code : String
deriving DecidableEq

def projHit (r : FuncRow) : SearchHit :=
  { function_name := r.function_name, file_path := r.file_path,
    function_summary := r.function_summary, function_code := r.function_code }

/-- Structural worker for `likeMatch`; every step shrinks the combined
length of pattern and text, so with fuel exceeding that sum the
zero-fuel case is unreachable from `likeMatch`. -/
def likeMatchAux : Nat → List Char → List Char → Bool
  | 0, ps, cs => ps.isEmpty && cs.isEmpty
  | _ + 1, [], cs => cs.isEmpty
  | fuel + 1, p :: ps, cs =>
    if p = '%' then
      likeMatchAux fuel ps cs ||
        (match cs with
         | [] => false
         | _ :: cs2 => likeMatchAux fuel (p :: ps) cs2)
    else
      match cs with
      | [] => false
      | c :: cs2 => (if p = '_' then true else p.toLower == c.toLower) && likeMatchAux fuel ps cs2

/-- SQLite `LIKE`: `%` matches any sequence, `_` any one character, and
ASCII letters compare case-insensitively. -/
def likeMatch (ps cs : List Char) : Bool :=
  likeMatchAux (ps.length + cs.length + 1) ps cs

/-- The parameter `f'%{term}%'` bound to `keywords LIKE ?`. -/
def likePatternFor (term : String) : List Char := '%' :: (term.data ++ ['%'])

/-- The tokens of the query: `query.lower().split()`. -/
def queryTokens (query : String) : List String :=
  (runsOf (fun c => !isPyWs c) (lowerStr query).data).map String.mk

/-- The OR of the `keywords LIKE ?` disjuncts for one row. -/
def rowMatches (tokens : List String) (r : FuncRow) : Bool :=
  tokens.any fun t => likeMatch (likePatternFor t) r.keywords.data

/-- Insertion step for `ORDER BY created_at DESC`. -/
def insertByCreatedDesc (x : FuncRow) : List FuncRow → List FuncRow
  | [] => [x]
  | y :: ys => if x.created_at > y.created_at then x :: y :: ys else y :: insertByCreatedDesc x ys

/-- `ORDER BY created_at DESC` over the selected rows. -/
def sortByCreatedDesc : List FuncRow → List FuncRow
  | [] => []
  | x :: xs => insertByCreatedDesc x (sortByCreatedDesc xs)

/-- Failure behavior of the store during one `search_functions` call:
`failBeforeTry` makes the initial connection/listing query (executed
before the try block, source lines 432-451) raise; `failInTry` makes a
query inside the try block raise. -/
structure SearchEnv where
  failBeforeTry : Bool
  failInTry : Bool
deriving DecidableEq

/-- Embedding of `search_functions`. A store error before the try block
propagates (`Except.error`); an error inside the try block, or the
malformed SQL produced by an empty token list, is caught and yields an
empty result. -/
def search_functions (env : SearchEnv) (db : DB) (repo_url query : String) :
    Except String (List SearchHit) :=
  if env.failBeforeTry then Except.error "database error" else
  let tokens := queryTokens query
  if env.failInTry || tokens.isEmpty then Except.ok [] else
  Except.ok
    ((sortByCreatedDesc
        (db.funcs.filter fun r => r.repo_url == repo_url && rowMatches tokens r)).map projHit)

/-! ## `get_repository_data` and `extract_github_info` -/

/-- The data returned for an existing repository row. -/
structure RepoData where
  repo_name : String
  tree_structure : String
  repo_summary : String
  is_favorite : Bool
  created_at : Nat
  updated_at : Nat
deriving DecidableEq

def mkRepoData (r : RepoRow) : RepoData :=
  { repo_name := r.repo_name, tree_structure := r.tree_structure,
    repo_summary := r.repo_summary, is_favorite := r.is_favorite,
    created_at := r.created_at, updated_at := r.updated_at }

/-- Embedding of `get_repository_data`: `none` models `exists: False`. -/
def get_repository_data (username repo_url : String) (db : DB) : Option RepoData :=
  (findRepo username repo_url db.repos).map mkRepoData

def litGithub : List Char := ['g', 'i', 't', 'h', 'u', 'b', '.', 'c', 'o', 'm', '/']
def litDotGit : List Char := ['.', 'g', 'i', 't']

/-- After a matched `github.com/` literal: `([^/]+)/([^/]+)`. -/
def parseOwnerRepo (cs : List Char) : Option (String × String) :=
  let u := cs.takeWhile fun c => !(c == '/')
  if u.isEmpty then none
  else
    match cs.dropWhile (fun c => !(c == '/')) with
    | '/' :: rest =>
      let r := rest.takeWhile fun c => !(c == '/')
      if r.isEmpty then none else some (String.mk u, String.mk r)
    | _ => none

/-- Leftmost `re.search` of `github\.com/([^/]+)/([^/]+)` over the URL. -/
def findGithubInfo : List Char → Option (String × String)
  | [] => none
  | c :: rest =>
    match expectLit litGithub (c :: rest) with
    | some after =>
      match parseOwnerRepo after with
      | some p => some p
      | none => findGithubInfo rest
    | none => findGithubInfo rest

/-- Structural worker for `removeDotGit`; at least one character is
consumed per step, so the zero-fuel case is unreachable from
`removeDotGit`. -/
def removeDotGitAux : Nat → List Char → List Char
  | 0, cs => cs
  | _ + 1, [] => []
  | fuel + 1, c :: rest =>
    if startsList litDotGit (c :: rest) then removeDotGitAux fuel (rest.drop 3)
    else c :: removeDotGitAux fuel rest

/-- Python `repo_name.replace('.git', '')`: every occurrence removed,
scanning left to right without overlap. -/
def removeDotGit (cs : List Char) : List Char := removeDotGitAux cs.length cs

/-- Embedding of `extract_github_info`; `none` models the raised
`ValueError`. The three later URL patterns of the source are refinements
of the first one and can never fire when it does not, so the first
pattern decides the result. -/
def extract_github_info (url : String) : Option (String × String) :=
  (findGithubInfo url.data).map fun p => (p.1, String.mk (removeDotGit p.2.data))

/-! ## The `process_repository` endpoint -/

/-- One document produced by `process_github_repository`: a relative
file path and the file text. -/
structure Document where
  file_path : String
  text : String
deriving DecidableEq

/-- The repository-retrieval collaborator (`process_github_repository`):
given username and repo name it either fails (clone or read failure,
`success: False` with an error string) or returns the documents and the
serialized tree structure. -/
def FetchOracle : Type := String → String → Except String (List Document × String)

/-- The OpenAI environment: the outcome of each summarization call as a
function of the call arguments. -/
def SummarizerOracle : Type := String → String → SummarizerOutcome

/-- Store failure behavior: whether the repository-row upsert commits,
and whether the insert for a given function record (identified by file
path and function name) commits or raises. -/
structure StoreOracle where
  repoOk : String → String → Bool
  funcOk : String → String → Bool

/-- The response of the `process_repository` endpoint. -/
inductive ProcResponse where
  | errorResp (msg : String)
  | already (data : RepoData) (username repo_name : String)
  | processed (username repo_name tree_structure repo_summary : String)
      (functions_processed : Nat)
deriving DecidableEq

/-- The fixed no-content repository summary of the source. -/
def noContentMsg (repo_name : String) : String :=
  "Repository " ++ repo_name ++
    " processed but no readable content found. This may be due to binary files, empty repository, or file access issues."

/-- All candidate records over all documents, each paired with the file
path of its document, in processing order. -/
def candidateFuncs (documents : List Document) : List (String × ExtractedFunc) :=
  concatMap
    (fun doc => (extract_functions_from_code doc.text doc.file_path).map
      fun f => (doc.file_path, f))
    documents

/-- One iteration of the per-function loop: the empty-code guard, the
per-record summarization, and the insert; a store failure is caught and
the record skipped without touching the count. -/
def processFuncStep (osum : SummarizerOracle) (ost : StoreOracle) (now : Nat)
    (github_url : String) (acc : DB × Nat) (pf : String × ExtractedFunc) : DB × Nat :=
  if (stripChars pf.2.code.data).isEmpty then acc
  else
    let ctx := "function " ++ pf.2.name ++ " in " ++ pf.1
    let fsum := summarize_with_openai pf.2.code ctx (osum pf.2.code ctx)
    if ost.funcOk pf.1 pf.2.name then
      (store_function_data github_url pf.1 pf.2.name pf.2.code fsum now acc.1, acc.2 + 1)
    else acc

/-- The list of function rows the loop commits, used to characterize the
loop in the theorems below. -/
def storedFuncRows (osum : SummarizerOracle) (ost : StoreOracle) (now : Nat)
    (github_url : String) (cands : List (String × ExtractedFunc)) : List FuncRow :=
  cands.filterMap fun pf =>
    if (stripChars pf.2.code.data).isEmpty then none
    else
      let ctx := "function " ++ pf.2.name ++ " in " ++ pf.1
      let fsum := summarize_with_openai pf.2.code ctx (osum pf.2.code ctx)
      if ost.funcOk pf.1 pf.2.name then
        some (mkFuncRow github_url pf.1 pf.2.name pf.2.code fsum now)
      else none

/-- The repository-level summary: the concatenation of every document
text is summarized in one call, except that an all-whitespace
concatenation short-circuits to the fixed no-content message. -/
def repoSummaryOf (osum : SummarizerOracle) (repo_name : String)
    (documents : List Document) : String :=
  let all_content := joinSep "\n\n" (documents.map Document.text)
  let ctx := "GitHub repository " ++ repo_name
  if (stripChars all_content.data).isEmpty then noContentMsg repo_name
  else summarize_with_openai all_content ctx (osum all_content ctx)

/-- Embedding of the `process_repository` endpoint: parse the URL, short
circuit when the identity key already has a row, retrieve, summarize the
concatenated content, upsert the repository row, then run the guarded
per-function loop. -/
def process_repository (fetch : FetchOracle) (osum : SummarizerOracle) (ost : StoreOracle)
    (now : Nat) (github_url : String) (db : DB) : ProcResponse × DB :=
  match extract_github_info github_url with
  | none => (ProcResponse.errorResp ("Invalid GitHub URL: " ++ github_url), db)
  | some (username, repo_name) =>
    match get_repository_data username github_url db with
    | some data => (ProcResponse.already data username repo_name, db)
    | none =>
      match fetch username repo_name with
      | Except.error e => (ProcResponse.errorResp e, db)
      | Except.ok fr =>
        let documents := fr.1
        let tree_structure := fr.2
        let repo_summary := repoSummaryOf osum repo_name documents
        if ost.repoOk username github_url then
          let db1 := store_repository_data username github_url repo_name tree_structure
            repo_summary now db
          let res := (candidateFuncs documents).foldl
            (processFuncStep osum ost now github_url) (db1, 0)
          (ProcResponse.processed username repo_name tree_structure repo_summary res.2, res.1)
        else (ProcResponse.errorResp "Error storing repository data", db)

/-! ## Semantic search (modelled from the spec) -/

/-- Modelled from the spec: the vector search path (vector store,
embedding function, semantic-search boundary operation of spec sections
4.5, 4.6 and 7) has no implementation under src/, so it is embedded from
the specification text. The vector store exposes a nearest-neighbor
query returning identities with distances. -/
structure VectorStore where
  nnQuery : List Rat → Option String → Nat → List (String × Rat)

/-- Modelled from the spec: process-wide lazily constructed handles; a
`none` component means that part was never successfully initialized. -/
structure VectorSearchState where
  vectorStore : Option VectorStore
  embedFn : Option (String → List Rat)

/-- Modelled from the spec: the declared response states of the
semantic-search boundary operation — a ranked similarity list, the
capability-unavailable condition, or a generic failure. -/
inductive SemanticSearchResult where
  | results (hits : List (String × Rat))
  | capabilityUnavailable
  | genericFailure (msg : String)

/-- Modelled from the spec: semantic search embeds the query, issues the
nearest-neighbor query, and converts distance to similarity by
`1 - distance`; when the vector store or embedding function was never
initialized it reports capability-unavailable instead of raising. -/
def semantic_search (st : VectorSearchState) (query : String) (urlFilter : Option String)
    (limit : Nat) : SemanticSearchResult :=
  match st.vectorStore, st.embedFn with
  | some vs, some embed =>
    SemanticSearchResult.results
      ((vs.nnQuery (embed query) urlFilter limit).map fun h => (h.1, 1 - h.2))
  | _, _ => SemanticSearchResult.capabilityUnavailable

/-! ## Concrete fixtures used by witnesses and counterexamples -/

def wDocs : List Document := [{ file_path := "m.py", text := "def alpha():\n  x = 1" }]
def wFetch : FetchOracle := fun _ _ => Except.ok (wDocs, "tree")
def wFetchFail : FetchOracle := fun _ _ => Except.error "clone failed"
def wOsum : SummarizerOracle := fun _ _ => SummarizerOutcome.noKey
def wOsumFail : SummarizerOracle := fun _ _ => SummarizerOutcome.apiError "rate limited"
def wOst : StoreOracle := { repoOk := fun _ _ => true, funcOk := fun _ _ => true }
def wUrl : String := "https://github.com/u/r"
def wDb0 : DB := { repos := [], funcs := [] }

/-- A state holding a function record for `wUrl` but no repository row
for its identity key. -/
def c1Db : DB :=
  { repos := [], funcs := [mkFuncRow wUrl "old.py" "oldfn" "def oldfn():" "old summary" 0] }

/-- A stored record whose keywords text is exactly `abc`. -/
def c4Row : FuncRow := mkFuncRow "u1" "f.py" "abc" "code" "" 0
def c4Db : DB := { repos := [], funcs := [c4Row] }

/-- An input exceeding the 8000-character truncation threshold. -/
def bigContent : String := String.mk (List.replicate 8001 'a')

def w6Row : RepoRow :=
  { username := "u", repo_url := wUrl, repo_name := "r", tree_structure := "t",
    repo_summary := "s", is_favorite := false, created_at := 0, updated_at := 0 }
def w6Db : DB := { repos := [w6Row], funcs := [] }

/-! ## Helper lemmas about the parsers -/

theorem expectLit_eq_some {l cs r : List Char} :
    expectLit l cs = some r ↔ cs = l ++ r := by
  induction l generalizing cs with
  | nil => simp [expectLit, eq_comm]
  | cons x xs ih =>
    cases cs with
    | nil => simp [expectLit]
    | cons c cs2 =>
      simp only [expectLit, List.cons_append, List.cons.injEq]
      split
      · next h => subst h; simp [ih]
      · next h => simp [h]

theorem wsPlus_eq_some {cs r : List Char} :
    wsPlus cs = some r ↔ ∃ d t, cs = d :: t ∧ isPyWs d = true ∧ r = t.dropWhile isPyWs := by
  cases cs with
  | nil => simp [wsPlus]
  | cons d t =>
    simp only [wsPlus]
    split
    · next h =>
      constructor
      · intro heq
        refine ⟨d, t, rfl, h, ?_⟩
        injection heq with heq1
        exact heq1.symm
      · rintro ⟨d2, t2, he, hw2, hr⟩
        injection he with he1 he2
        subst he1
        subst he2
        subst hr
        rfl
    · next h =>
      simp only [Bool.not_eq_true] at h
      constructor
      · intro heq
        exact absurd heq (by simp)
      · rintro ⟨d2, t2, he, hw2, hr⟩
        injection he with he1 he2
        subst he1
        rw [hw2] at h
        exact absurd h (by simp)

theorem identTok_eq_some {cs : List Char} {pr : List Char × List Char} :
    identTok cs = some pr ↔ ∃ c t, cs = c :: t ∧ isIdentStart c = true ∧
      pr = (c :: t.takeWhile isWordChar, t.dropWhile isWordChar) := by
  cases cs with
  | nil => simp [identTok]
  | cons c t =>
    simp only [identTok]
    split
    · next h =>
      constructor
      · intro heq
        refine ⟨c, t, rfl, h, ?_⟩
        injection heq with heq1
        exact heq1.symm
      · rintro ⟨c2, t2, he, hw2, hr⟩
        injection he with he1 he2
        subst he1
        subst he2
        subst hr
        rfl
    · next h =>
      simp only [Bool.not_eq_true] at h
      constructor
      · intro heq
        exact absurd heq (by simp)
      · rintro ⟨c2, t2, he, hw2, hr⟩
        injection he with he1 he2
        subst he1
        rw [hw2] at h
        exact absurd h (by simp)

/-! ## Character-class facts -/

theorem ws_cases {c : Char} (h : isPyWs c = true) :
    c = ' ' ∨ c = '\t' ∨ c = '\n' ∨ c = '\r' ∨ c = '\x0b' ∨ c = '\x0c' := by
  simp [isPyWs] at h
  tauto

theorem ws_not_word {c : Char} (h : isPyWs c = true) : isWordChar c = false := by
  rcases ws_cases h with h | h | h | h | h | h <;> subst h <;> decide

theorem ws_not_identStart {c : Char} (h : isPyWs c = true) : isIdentStart c = false := by
  rcases ws_cases h with h | h | h | h | h | h <;> subst h <;> decide

theorem identStart_not_ws {c : Char} (h : isIdentStart c = true) : isPyWs c = false := by
  cases hw : isPyWs c
  · rfl
  · rw [ws_not_identStart hw] at h
    exact absurd h (by simp)

theorem identStart_ne_lparen {c : Char} (h : isIdentStart c = true) : ¬ c = '(' := by
  intro he
  subst he
  exact absurd h (by decide)

theorem takeWhile_all_append {p : Char → Bool} {xs : List Char} {y : Char} {r : List Char}
    (hx : ∀ x ∈ xs, p x = true) (hy : p y = false) :
    (xs ++ y :: r).takeWhile p = xs := by
  induction xs with
  | nil => simp [List.takeWhile_cons, hy]
  | cons a as ih =>
    have ha := hx a (by simp)
    simp only [List.cons_append, List.takeWhile_cons, ha, if_true]
    simp [ih fun x hm => hx x (by simp [hm])]

theorem dropWhile_all_append {p : Char → Bool} {xs : List Char} {y : Char} {r : List Char}
    (hx : ∀ x ∈ xs, p x = true) (hy : p y = false) :
    (xs ++ y :: r).dropWhile p = y :: r := by
  induction xs with
  | nil => simp [List.dropWhile_cons, hy]
  | cons a as ih =>
    have ha := hx a (by simp)
    simp only [List.cons_append, List.dropWhile_cons, ha, if_true]
    exact ih fun x hm => hx x (by simp [hm])

/-! ## Per-line mutual exclusivity of the extraction patterns -/

theorem clash_head {a b : Char} (hne : ¬ a = b) {xs ys r1 r2 : List Char} :
    ¬ ((a :: xs) ++ r1 = (b :: ys) ++ r2) := by
  intro h
  simp only [List.cons_append] at h
  injection h with h1 _
  exact hne h1

theorem clash_second {a a2 b c : Char} (hne : ¬ b = c) {xs ys r1 r2 : List Char} :
    ¬ ((a :: b :: xs) ++ r1 = (a2 :: c :: ys) ++ r2) := by
  intro h
  simp only [List.cons_append] at h
  injection h with _ h
  injection h with h2 _
  exact hne h2

theorem pyDefPat_lit {s nm : List Char} (h : pyDefPat s = some nm) :
    ∃ r1, expectLit kwDef (dropWs s) = some r1 := by
  simp only [pyDefPat, Option.bind_eq_some] at h
  obtain ⟨r1, h1, -⟩ := h
  exact ⟨r1, h1⟩

theorem pyClassPat_lit {s nm : List Char} (h : pyClassPat s = some nm) :
    ∃ r1, expectLit kwClass (dropWs s) = some r1 := by
  simp only [pyClassPat, Option.bind_eq_some] at h
  obtain ⟨r1, h1, -⟩ := h
  exact ⟨r1, h1⟩

theorem pyAsyncPat_lit {s nm : List Char} (h : pyAsyncPat s = some nm) :
    ∃ r1, expectLit kwAsync (dropWs s) = some r1 := by
  simp only [pyAsyncPat, Option.bind_eq_some] at h
  obtain ⟨r1, h1, -⟩ := h
  exact ⟨r1, h1⟩

theorem pyClass_none_of_def {s nm : List Char} (h : pyDefPat s = some nm) :
    pyClassPat s = none := by
  cases hc : pyClassPat s with
  | none => rfl
  | some nm2 =>
    exfalso
    obtain ⟨r1, h1⟩ := pyDefPat_lit h
    obtain ⟨r2, h2⟩ := pyClassPat_lit hc
    rw [expectLit_eq_some] at h1 h2
    rw [h1] at h2
    exact clash_head (by decide) h2

theorem pyAsync_none_of_def {s nm : List Char} (h : pyDefPat s = some nm) :
    pyAsyncPat s = none := by
  cases hc : pyAsyncPat s with
  | none => rfl
  | some nm2 =>
    exfalso
    obtain ⟨r1, h1⟩ := pyDefPat_lit h
    obtain ⟨r2, h2⟩ := pyAsyncPat_lit hc
    rw [expectLit_eq_some] at h1 h2
    rw [h1] at h2
    exact clash_head (by decide) h2

theorem pyAsync_none_of_class {s nm : List Char} (h : pyClassPat s = some nm) :
    pyAsyncPat s = none := by
  cases hc : pyAsyncPat s with
  | none => rfl
  | some nm2 =>
    exfalso
    obtain ⟨r1, h1⟩ := pyClassPat_lit h
    obtain ⟨r2, h2⟩ := pyAsyncPat_lit hc
    rw [expectLit_eq_some] at h1 h2
    rw [h1] at h2
    exact clash_head (by decide) h2

theorem jsFunctionPat_lit {s nm : List Char} (h : jsFunctionPat s = some nm) :
    ∃ r1 r2 pr, expectLit kwFunction (dropWs s) = some r1 ∧ wsPlus r1 = some r2 ∧
      identTok r2 = some pr := by
  simp only [jsFunctionPat, Option.bind_eq_some] at h
  obtain ⟨r1, h1, r2, h2, pr, h3, -⟩ := h
  exact ⟨r1, r2, pr, h1, h2, h3⟩

theorem jsArrowPat_lit {s nm : List Char} (h : jsArrowPat s = some nm) :
    ∃ kw r1 r2 pr, (kw = kwConst ∨ kw = kwLet ∨ kw = kwVar) ∧
      expectLit kw (dropWs s) = some r1 ∧ wsPlus r1 = some r2 ∧ identTok r2 = some pr := by
  simp only [jsArrowPat, Option.bind_eq_some] at h
  obtain ⟨r1, h1, r2, h2, pr, h3, -⟩ := h
  simp only [kwCLV] at h1
  split at h1
  · next hc => exact ⟨kwConst, r1, r2, pr, Or.inl rfl, by rw [hc]; injection h1 with h1e; rw [h1e], h2, h3⟩
  · split at h1
    · next hl => exact ⟨kwLet, r1, r2, pr, Or.inr (Or.inl rfl), by rw [hl]; injection h1 with h1e; rw [h1e], h2, h3⟩
    · exact ⟨kwVar, r1, r2, pr, Or.inr (Or.inr rfl), h1, h2, h3⟩

theorem jsClassPat_lit {s nm : List Char} (h : jsClassPat s = some nm) :
    ∃ r1 r2 pr, expectLit kwClass (dropWs s) = some r1 ∧ wsPlus r1 = some r2 ∧
      identTok r2 = some pr := by
  simp only [jsClassPat, Option.bind_eq_some, Option.map_eq_some'] at h
  obtain ⟨r1, h1, r2, h2, pr, h3, -⟩ := h
  exact ⟨r1, r2, pr, h1, h2, h3⟩

/-- The method-shorthand pattern cannot fire on a line whose first token
is a keyword made of word characters followed by whitespace and an
identifier: its would-be capture is the keyword itself, after which an
open parenthesis is required but an identifier character follows. -/
theorem jsMethodPat_none_of_kw {s : List Char} {k : Char} {ktail r1 r2 : List Char}
    (hk : isIdentStart k = true)
    (hkw : ∀ c ∈ ktail, isWordChar c = true)
    (h1 : expectLit (k :: ktail) (dropWs s) = some r1)
    (h2 : wsPlus r1 = some r2)
    (h3 : (identTok r2).isSome = true) :
    jsMethodPat s = none := by
  rw [expectLit_eq_some] at h1
  rw [wsPlus_eq_some] at h2
  obtain ⟨d, t, hr1, hd, hr2⟩ := h2
  obtain ⟨pr, hpr⟩ := Option.isSome_iff_exists.mp h3
  rw [identTok_eq_some] at hpr
  obtain ⟨c, u, hr2c, hc, -⟩ := hpr
  subst hr1
  simp only [jsMethodPat]
  rw [h1]
  have hit : identTok ((k :: ktail) ++ d :: t) =
      some (k :: ktail, d :: t) := by
    simp only [List.cons_append, identTok, hk, if_true]
    rw [takeWhile_all_append hkw (ws_not_word hd), dropWhile_all_append hkw (ws_not_word hd)]
  rw [hit]
  have hdw : dropWs (d :: t) = c :: u := by
    simp only [dropWs, List.dropWhile_cons, hd, if_true]
    rw [← hr2c, hr2]
  have hpar : parens (dropWs (d :: t)) = none := by
    rw [hdw]
    simp only [parens, expectChar]
    rw [if_neg (identStart_ne_lparen hc)]
    rfl
  show (parens (dropWs (d :: t))).bind
      (fun r => (expectChar '\x7b' (dropWs r)).map fun _ => k :: ktail) = none
  simp [hpar]

theorem jsArrow_none_of_function {s nm : List Char} (h : jsFunctionPat s = some nm) :
    jsArrowPat s = none := by
  cases ha : jsArrowPat s with
  | none => rfl
  | some nm2 =>
    exfalso
    obtain ⟨r1, r2, pr, h1, -, -⟩ := jsFunctionPat_lit h
    obtain ⟨kw, r1b, r2b, prb, hkw, h1b, -, -⟩ := jsArrowPat_lit ha
    rw [expectLit_eq_some] at h1 h1b
    rw [h1] at h1b
    rcases hkw with hk | hk | hk <;> subst hk
    · exact clash_head (by decide) h1b
    · exact clash_head (by decide) h1b
    · exact clash_head (by decide) h1b

theorem jsClass_none_of_function {s nm : List Char} (h : jsFunctionPat s = some nm) :
    jsClassPat s = none := by
  cases ha : jsClassPat s with
  | none => rfl
  | some nm2 =>
    exfalso
    obtain ⟨r1, r2, pr, h1, -, -⟩ := jsFunctionPat_lit h
    obtain ⟨r1b, r2b, prb, h1b, -, -⟩ := jsClassPat_lit ha
    rw [expectLit_eq_some] at h1 h1b
    rw [h1] at h1b
    exact clash_head (by decide) h1b

theorem jsClass_none_of_arrow {s nm : List Char} (h : jsArrowPat s = some nm) :
    jsClassPat s = none := by
  cases ha : jsClassPat s with
  | none => rfl
  | some nm2 =>
    exfalso
    obtain ⟨kw, r1, r2, pr, hkw, h1, -, -⟩ := jsArrowPat_lit h
    obtain ⟨r1b, r2b, prb, h1b, -, -⟩ := jsClassPat_lit ha
    rw [expectLit_eq_some] at h1 h1b
    rw [h1b] at h1
    rcases hkw with hk | hk | hk <;> subst hk
    · exact clash_second (by decide) h1.symm
    · exact clash_head (by decide) h1.symm
    · exact clash_head (by decide) h1.symm

theorem jsMethod_none_of_function {s nm : List Char} (h : jsFunctionPat s = some nm) :
    jsMethodPat s = none := by
  obtain ⟨r1, r2, pr, h1, h2, h3⟩ := jsFunctionPat_lit h
  exact jsMethodPat_none_of_kw (by decide) (by decide) h1 h2 (by simp [h3])

theorem jsMethod_none_of_arrow {s nm : List Char} (h : jsArrowPat s = some nm) :
    jsMethodPat s = none := by
  obtain ⟨kw, r1, r2, pr, hkw, h1, h2, h3⟩ := jsArrowPat_lit h
  rcases hkw with hk | hk | hk <;> subst hk
  · exact jsMethodPat_none_of_kw (by decide) (by decide) h1 h2 (by simp [h3])
  · exact jsMethodPat_none_of_kw (by decide) (by decide) h1 h2 (by simp [h3])
  · exact jsMethodPat_none_of_kw (by decide) (by decide) h1 h2 (by simp [h3])

theorem jsMethod_none_of_class {s nm : List Char} (h : jsClassPat s = some nm) :
    jsMethodPat s = none := by
  obtain ⟨r1, r2, pr, h1, h2, h3⟩ := jsClassPat_lit h
  exact jsMethodPat_none_of_kw (by decide) (by decide) h1 h2 (by simp [h3])

theorem concatMap_congr {α β : Type} {f g : α → List β} {l : List α}
    (h : ∀ x ∈ l, f x = g x) : concatMap f l = concatMap g l := by
  induction l with
  | nil => rfl
  | cons x xs ih =>
    simp only [concatMap, h x (by simp)]
    rw [ih fun y hy => h y (by simp [hy])]

/-- With the Python pattern list, every pattern after the first matching
one fails, so the filtered matches collapse to the first match. -/
theorem pyPatterns_first {β : Type} (s : List Char) (F : Option (List Char) → Option β)
    (hF : F none = none) :
    (pyPatterns.filterMap fun p => F (p s)) = (F (firstSome pyPatterns s)).toList := by
  cases h1 : pyDefPat s with
  | some nm =>
    have h2 := pyClass_none_of_def h1
    have h3 := pyAsync_none_of_def h1
    cases hfn : F (some nm) <;>
      simp [pyPatterns, firstSome, List.filterMap_cons, h1, h2, h3, hF, hfn]
  | none =>
    cases h2 : pyClassPat s with
    | some nm =>
      have h3 := pyAsync_none_of_class h2
      cases hfn : F (some nm) <;>
        simp [pyPatterns, firstSome, List.filterMap_cons, h1, h2, h3, hF, hfn]
    | none =>
      cases h3 : pyAsyncPat s with
      | some nm =>
        cases hfn : F (some nm) <;>
          simp [pyPatterns, firstSome, List.filterMap_cons, h1, h2, h3, hF, hfn]
      | none => simp [pyPatterns, firstSome, List.filterMap_cons, h1, h2, h3, hF]

/-- With the JS pattern list, every pattern after the first matching one
fails, so the filtered matches collapse to the first match. -/
theorem jsPatterns_first {β : Type} (s : List Char) (F : Option (List Char) → Option β)
    (hF : F none = none) :
    (jsPatterns.filterMap fun p => F (p s)) = (F (firstSome jsPatterns s)).toList := by
  cases h1 : jsFunctionPat s with
  | some nm =>
    have h2 := jsArrow_none_of_function h1
    have h3 := jsMethod_none_of_function h1
    have h4 := jsClass_none_of_function h1
    cases hfn : F (some nm) <;>
      simp [jsPatterns, firstSome, List.filterMap_cons, h1, h2, h3, h4, hF, hfn]
  | none =>
    cases h2 : jsArrowPat s with
    | some nm =>
      have h3 := jsMethod_none_of_arrow h2
      have h4 := jsClass_none_of_arrow h2
      cases hfn : F (some nm) <;>
        simp [jsPatterns, firstSome, List.filterMap_cons, h1, h2, h3, h4, hF, hfn]
    | none =>
      cases h4 : jsClassPat s with
      | some nm =>
        have h3 := jsMethod_none_of_class h4
        cases hfn : F (some nm) <;>
          simp [jsPatterns, firstSome, List.filterMap_cons, h1, h2, h3, h4, hF, hfn]
      | none =>
        cases h3 : jsMethodPat s with
        | some nm =>
          cases hfn : F (some nm) <;>
            simp [jsPatterns, firstSome, List.filterMap_cons, h1, h2, h3, h4, hF, hfn]
        | none => simp [jsPatterns, firstSome, List.filterMap_cons, h1, h2, h3, h4, hF]

/-- C5: for every line of an input file the extractor produces at most
one candidate; the ordered pattern list of the content kind is tried in
order and the first matching pattern yields the single candidate, named
by its captured identifier; two patterns never both fire on one line, so
the full extraction equals the per-line first-match collapse. -/
theorem extract_first_pattern_wins (code file_path : String) :
    extract_functions_from_code code file_path =
      concatMap
        (fun pr => ((firstSome (patternsFor file_path) (stripChars pr.2)).map
            (mkCand (splitNl code.data) pr.1)).toList)
        (enumFrom 0 (splitNl code.data)) ∧
    ∀ s : List Char, ((patternsFor file_path).filterMap fun p => p s).length ≤ 1 := by
  constructor
  · simp only [extract_functions_from_code]
    apply concatMap_congr
    intro pr _
    unfold patternsFor
    split
    · exact pyPatterns_first (stripChars pr.2) (fun o => o.map (mkCand (splitNl code.data) pr.1)) rfl
    · exact jsPatterns_first (stripChars pr.2) (fun o => o.map (mkCand (splitNl code.data) pr.1)) rfl
  · intro s
    have hid : ((patternsFor file_path).filterMap fun p => p s) =
        (firstSome (patternsFor file_path) s).toList := by
      unfold patternsFor
      split
      · exact pyPatterns_first s (fun o => o) rfl
      · exact jsPatterns_first s (fun o => o) rfl
    rw [hid]
    cases firstSome (patternsFor file_path) s <;> simp

/-! ## Lemmas about the repository store -/

theorem findRepo_eq_none {u url : String} {rs : List RepoRow} :
    findRepo u url rs = none ↔ ∀ r ∈ rs, keyIs u url r = false := by
  induction rs with
  | nil => simp [findRepo]
  | cons r rs ih =>
    simp only [findRepo]
    split
    · next h => simp [h]
    · next h =>
      simp only [Bool.not_eq_true] at h
      simp [h, ih]

theorem findRepo_some_mem {u url : String} {rs : List RepoRow} {w : RepoRow}
    (h : findRepo u url rs = some w) : w ∈ rs ∧ keyIs u url w = true := by
  induction rs with
  | nil => simp [findRepo] at h
  | cons r rs ih =>
    simp only [findRepo] at h
    split at h
    · next hk =>
      injection h with he
      subst he
      exact ⟨by simp, hk⟩
    · obtain ⟨hm, hk⟩ := ih h
      exact ⟨by simp [hm], hk⟩

theorem findRepo_isSome_of_mem {u url : String} {rs : List RepoRow} {r : RepoRow}
    (hmem : r ∈ rs) (hk : keyIs u url r = true) : ∃ w, findRepo u url rs = some w := by
  induction rs with
  | nil => simp at hmem
  | cons x xs ih =>
    simp only [findRepo]
    split
    · exact ⟨x, rfl⟩
    · next hx =>
      rcases List.mem_cons.mp hmem with he | hm
      · subst he
        exact absurd hk (by simp [hx])
      · exact ih hm

theorem beq_comm_str (x y : String) : (x == y) = (y == x) := by
  by_cases h : x = y
  · subst h; rfl
  · rw [beq_eq_false_iff_ne.mpr h, beq_eq_false_iff_ne.mpr (Ne.symm h)]

theorem length_updateRepoRows {u url n t s : String} {now : Nat} {rs : List RepoRow} :
    (updateRepoRows u url n t s now rs).length = rs.length := by
  induction rs with
  | nil => rfl
  | cons r rs ih => simp [updateRepoRows, ih]

theorem keyIs_updateRow {a b u url n t s : String} {now : Nat} {r : RepoRow} :
    keyIs a b (if keyIs u url r then
      { r with repo_name := n, tree_structure := t, repo_summary := s, updated_at := now }
     else r) = keyIs a b r := by
  split <;> rfl

theorem mem_updateRepoRows_of_not_key {u url n t s : String} {now : Nat} {rs : List RepoRow}
    {r : RepoRow} (hmem : r ∈ rs) (hk : keyIs u url r = false) :
    r ∈ updateRepoRows u url n t s now rs := by
  induction rs with
  | nil => simp at hmem
  | cons x xs ih =>
    simp only [updateRepoRows]
    rcases List.mem_cons.mp hmem with he | hm
    · subst he
      rw [if_neg (by simp [hk])]
      exact List.mem_cons_self _ _
    · exact List.mem_cons_of_mem _ (ih hm)

theorem mem_updateRepoRows_of_key {u url n t s : String} {now : Nat} {rs : List RepoRow}
    {r : RepoRow} (hmem : r ∈ rs) (hk : keyIs u url r = true) :
    { r with repo_name := n, tree_structure := t, repo_summary := s, updated_at := now } ∈
      updateRepoRows u url n t s now rs := by
  induction rs with
  | nil => simp at hmem
  | cons x xs ih =>
    simp only [updateRepoRows]
    rcases List.mem_cons.mp hmem with he | hm
    · subst he
      rw [if_pos hk]
      exact List.mem_cons_self _ _
    · exact List.mem_cons_of_mem _ (ih hm)

theorem all_key_updateRepoRows {a b u url n t s : String} {now : Nat} {rs : List RepoRow}
    (h : rs.all (fun r2 => !keyIs a b r2) = true) :
    (updateRepoRows u url n t s now rs).all (fun r2 => !keyIs a b r2) = true := by
  induction rs with
  | nil => rfl
  | cons r rs ih =>
    simp only [List.all_cons, Bool.and_eq_true] at h
    simp only [updateRepoRows, List.all_cons, Bool.and_eq_true]
    refine ⟨?_, ih h.2⟩
    rw [keyIs_updateRow]
    exact h.1

theorem distinctKeys_updateRepoRows {u url n t s : String} {now : Nat} {rs : List RepoRow}
    (h : distinctKeys rs = true) :
    distinctKeys (updateRepoRows u url n t s now rs) = true := by
  induction rs with
  | nil => rfl
  | cons r rs ih =>
    simp only [distinctKeys, Bool.and_eq_true] at h
    simp only [updateRepoRows, distinctKeys, Bool.and_eq_true]
    constructor
    · have hu : (if keyIs u url r then
          { r with repo_name := n, tree_structure := t, repo_summary := s, updated_at := now }
         else r).username = r.username := by split <;> rfl
      have hr : (if keyIs u url r then
          { r with repo_name := n, tree_structure := t, repo_summary := s, updated_at := now }
         else r).repo_url = r.repo_url := by split <;> rfl
      rw [hu, hr]
      exact all_key_updateRepoRows h.1
    · exact ih h.2

theorem distinctKeys_append_one {rs : List RepoRow} {nr : RepoRow}
    (h : distinctKeys rs = true)
    (hall : ∀ r ∈ rs, keyIs nr.username nr.repo_url r = false) :
    distinctKeys (rs ++ [nr]) = true := by
  induction rs with
  | nil => simp [distinctKeys]
  | cons r rs ih =>
    simp only [distinctKeys, Bool.and_eq_true] at h
    simp only [List.cons_append, distinctKeys, Bool.and_eq_true]
    constructor
    · simp only [List.append_eq, List.all_append, Bool.and_eq_true]
      refine ⟨h.1, ?_⟩
      simp only [List.all_cons, List.all_nil, Bool.and_true]
      have := hall r (by simp)
      simp only [keyIs, Bool.and_eq_false_iff] at this
      simp only [Bool.not_eq_true', keyIs, Bool.and_eq_false_iff]
      rcases this with hb | hb
      · exact Or.inl (by rw [beq_comm_str]; exact hb)
      · exact Or.inr (by rw [beq_comm_str]; exact hb)
    · exact ih h.2 fun r2 hm => hall r2 (by simp [hm])

/-- C6: the repository store holds at most one live row per identity
key. Storing data for a key that already has a row updates that row in
place (name, tree snapshot, summary, updated_at) without inserting,
leaving every other row untouched; a previously unseen key appends
exactly one new row; and key distinctness is preserved in both cases.
The function table is never touched. -/
theorem store_repository_upsert (username repo_url repo_name tree_structure repo_summary : String)
    (now : Nat) (db : DB) (huniq : distinctKeys db.repos = true) :
    distinctKeys (store_repository_data username repo_url repo_name tree_structure
        repo_summary now db).repos = true ∧
    (store_repository_data username repo_url repo_name tree_structure repo_summary now db).funcs
      = db.funcs ∧
    ((∃ r ∈ db.repos, keyIs username repo_url r = true) →
      (store_repository_data username repo_url repo_name tree_structure repo_summary
        now db).repos.length = db.repos.length) ∧
    ((∀ r ∈ db.repos, keyIs username repo_url r = false) →
      (store_repository_data username repo_url repo_name tree_structure repo_summary
        now db).repos = db.repos ++
          [{ username := username, repo_url := repo_url, repo_name := repo_name,
             tree_structure := tree_structure, repo_summary := repo_summary,
             is_favorite := false, created_at := now, updated_at := now }]) ∧
    (∀ r ∈ db.repos, keyIs username repo_url r = false →
      r ∈ (store_repository_data username repo_url repo_name tree_structure repo_summary
        now db).repos) ∧
    (∀ r ∈ db.repos, keyIs username repo_url r = true →
      { r with repo_name := repo_name, tree_structure := tree_structure,
               repo_summary := repo_summary, updated_at := now } ∈
        (store_repository_data username repo_url repo_name tree_structure repo_summary
          now db).repos) := by
  cases hf : findRepo username repo_url db.repos with
  | some w =>
    obtain ⟨hwm, hwk⟩ := findRepo_some_mem hf
    simp only [store_repository_data, hf]
    refine ⟨distinctKeys_updateRepoRows huniq, trivial, fun _ => length_updateRepoRows, ?_, ?_, ?_⟩
    · intro hall
      exact absurd hwk (by simp [hall w hwm])
    · intro r hm hk
      exact mem_updateRepoRows_of_not_key hm hk
    · intro r hm hk
      exact mem_updateRepoRows_of_key hm hk
  | none =>
    have hall := findRepo_eq_none.mp hf
    simp only [store_repository_data, hf]
    refine ⟨?_, trivial, ?_, fun _ => trivial, ?_, ?_⟩
    · exact distinctKeys_append_one huniq fun r hm => hall r hm
    · intro hex
      obtain ⟨r, hm, hk⟩ := hex
      exact absurd hk (by simp [hall r hm])
    · intro r hm _
      exact List.mem_append_left _ hm
    · intro r hm hk
      exact absurd hk (by simp [hall r hm])

/-- C9: a process-repository request whose identity key already has a
stored repository row returns the stored data immediately with the
state unchanged. The fetch, summarizer and store oracles appear only on
the left-hand side, so the result is independent of them: nothing is
fetched, summarized, or written. -/
theorem process_existing_no_reprocess (fetch : FetchOracle) (osum : SummarizerOracle)
    (ost : StoreOracle) (now : Nat) (github_url : String) (db : DB) (u rn : String)
    (hparse : extract_github_info github_url = some (u, rn)) (data : RepoData)
    (hexists : get_repository_data u github_url db = some data) :
    process_repository fetch osum ost now github_url db
      = (ProcResponse.already data u rn, db) := by
  simp only [process_repository, hparse, hexists]

/-- C7: when repository retrieval fails (and the key had no stored row,
so the retrieval is actually attempted), the whole request aborts with a
structured error response, both tables are left exactly as they were,
and every keyword search over the store is unaffected. -/
theorem process_fetch_failure_frame (fetch : FetchOracle) (osum : SummarizerOracle)
    (ost : StoreOracle) (now : Nat) (github_url : String) (db : DB) (u rn e : String)
    (hparse : extract_github_info github_url = some (u, rn))
    (hnone : get_repository_data u github_url db = none)
    (hfail : fetch u rn = Except.error e) :
    process_repository fetch osum ost now github_url db = (ProcResponse.errorResp e, db) ∧
    ∀ (env : SearchEnv) (url2 q : String),
      search_functions env (process_repository fetch osum ost now github_url db).2 url2 q
        = search_functions env db url2 q := by
  have h1 : process_repository fetch osum ost now github_url db
      = (ProcResponse.errorResp e, db) := by
    simp only [process_repository, hparse, hnone, hfail]
  exact ⟨h1, fun env url2 q => by rw [h1]⟩

/-- The per-function loop appends exactly the committed rows and counts
them, leaving the repository table of the accumulator untouched. -/
theorem funcLoop_spec (osum : SummarizerOracle) (ost : StoreOracle) (now : Nat)
    (github_url : String) (cands : List (String × ExtractedFunc)) (db0 : DB) (n0 : Nat) :
    cands.foldl (processFuncStep osum ost now github_url) (db0, n0) =
      ({ db0 with funcs := db0.funcs ++ storedFuncRows osum ost now github_url cands },
        n0 + (storedFuncRows osum ost now github_url cands).length) := by
  induction cands generalizing db0 n0 with
  | nil => simp [storedFuncRows]
  | cons pf cands ih =>
    by_cases hempty : stripChars pf.2.code.data = []
    · have hstep : processFuncStep osum ost now github_url (db0, n0) pf = (db0, n0) := by
        simp [processFuncStep, hempty]
      have hrow : storedFuncRows osum ost now github_url (pf :: cands)
          = storedFuncRows osum ost now github_url cands := by
        simp [storedFuncRows, List.filterMap_cons, hempty]
      rw [List.foldl_cons, hstep, hrow]
      exact ih db0 n0
    · by_cases hok : ost.funcOk pf.1 pf.2.name = true
      · have hstep : processFuncStep osum ost now github_url (db0, n0) pf =
            (store_function_data github_url pf.1 pf.2.name pf.2.code
              (summarize_with_openai pf.2.code ("function " ++ pf.2.name ++ " in " ++ pf.1)
                (osum pf.2.code ("function " ++ pf.2.name ++ " in " ++ pf.1))) now db0,
             n0 + 1) := by
          simp [processFuncStep, hempty, hok]
        have hrow : storedFuncRows osum ost now github_url (pf :: cands)
            = mkFuncRow github_url pf.1 pf.2.name pf.2.code
                (summarize_with_openai pf.2.code ("function " ++ pf.2.name ++ " in " ++ pf.1)
                  (osum pf.2.code ("function " ++ pf.2.name ++ " in " ++ pf.1))) now
              :: storedFuncRows osum ost now github_url cands := by
          simp [storedFuncRows, List.filterMap_cons, hempty, hok]
        rw [List.foldl_cons, hstep, hrow, ih]
        simp [store_function_data, List.append_assoc]
        omega
      · have hstep : processFuncStep osum ost now github_url (db0, n0) pf = (db0, n0) := by
          simp [processFuncStep, hempty, hok]
        have hrow : storedFuncRows osum ost now github_url (pf :: cands)
            = storedFuncRows osum ost now github_url cands := by
          simp [storedFuncRows, List.filterMap_cons, hempty, hok]
        rw [List.foldl_cons, hstep, hrow]
        exact ih db0 n0

theorem store_repo_funcs (u url n t s : String) (now : Nat) (db : DB) :
    (store_repository_data u url n t s now db).funcs = db.funcs := by
  unfold store_repository_data
  split <;> rfl

theorem mem_storedFuncRows {osum : SummarizerOracle} {ost : StoreOracle} {now : Nat}
    {github_url : String} {cands : List (String × ExtractedFunc)}
    {pf : String × ExtractedFunc} (hm : pf ∈ cands)
    (hne : ¬ stripChars pf.2.code.data = [])
    (hok : ost.funcOk pf.1 pf.2.name = true) :
    mkFuncRow github_url pf.1 pf.2.name pf.2.code
      (summarize_with_openai pf.2.code ("function " ++ pf.2.name ++ " in " ++ pf.1)
        (osum pf.2.code ("function " ++ pf.2.name ++ " in " ++ pf.1))) now
      ∈ storedFuncRows osum ost now github_url cands := by
  simp only [storedFuncRows]
  exact List.mem_filterMap.mpr ⟨pf, hm, by simp [hne, hok]⟩

/-- C8 (amended): with retrieval and the repository-row upsert
succeeding, per-record failures are isolated. The response is the
success response whose count is the number of committed records, the
repository row is exactly the upserted one regardless of any per-record
failure, the function table gains exactly the committed rows, and every
candidate with nonempty code whose insert commits is stored — whatever
the summarizer outcome for it or for any other record was (a failed
summarization does not skip a record; the fallback text is stored). -/
theorem process_record_failure_isolated (fetch : FetchOracle) (osum : SummarizerOracle)
    (ost : StoreOracle) (now : Nat) (github_url : String) (db : DB) (u rn tree : String)
    (docs : List Document)
    (hparse : extract_github_info github_url = some (u, rn))
    (hnone : get_repository_data u github_url db = none)
    (hfetch : fetch u rn = Except.ok (docs, tree))
    (hrepoOk : ost.repoOk u github_url = true) :
    (process_repository fetch osum ost now github_url db).1
      = ProcResponse.processed u rn tree (repoSummaryOf osum rn docs)
          (storedFuncRows osum ost now github_url (candidateFuncs docs)).length ∧
    (process_repository fetch osum ost now github_url db).2.repos
      = (store_repository_data u github_url rn tree (repoSummaryOf osum rn docs) now db).repos ∧
    (process_repository fetch osum ost now github_url db).2.funcs
      = db.funcs ++ storedFuncRows osum ost now github_url (candidateFuncs docs) ∧
    ∀ pf ∈ candidateFuncs docs, ¬ stripChars pf.2.code.data = [] →
      ost.funcOk pf.1 pf.2.name = true →
      mkFuncRow github_url pf.1 pf.2.name pf.2.code
        (summarize_with_openai pf.2.code ("function " ++ pf.2.name ++ " in " ++ pf.1)
          (osum pf.2.code ("function " ++ pf.2.name ++ " in " ++ pf.1))) now
        ∈ (process_repository fetch osum ost now github_url db).2.funcs := by
  have hP : process_repository fetch osum ost now github_url db
      = (ProcResponse.processed u rn tree (repoSummaryOf osum rn docs)
            (storedFuncRows osum ost now github_url (candidateFuncs docs)).length,
         { store_repository_data u github_url rn tree (repoSummaryOf osum rn docs) now db with
             funcs := (store_repository_data u github_url rn tree (repoSummaryOf osum rn docs)
               now db).funcs ++ storedFuncRows osum ost now github_url (candidateFuncs docs) }) := by
    simp only [process_repository, hparse, hnone, hfetch, hrepoOk, if_true]
    rw [funcLoop_spec]
    simp
  refine ⟨by rw [hP], by rw [hP], ?_, ?_⟩
  · rw [hP]
    show (store_repository_data u github_url rn tree (repoSummaryOf osum rn docs)
        now db).funcs ++ storedFuncRows osum ost now github_url (candidateFuncs docs)
      = db.funcs ++ storedFuncRows osum ost now github_url (candidateFuncs docs)
    rw [store_repo_funcs]
  · intro pf hm hne hok
    rw [hP]
    show _ ∈ (store_repository_data u github_url rn tree (repoSummaryOf osum rn docs)
        now db).funcs ++ storedFuncRows osum ost now github_url (candidateFuncs docs)
    exact List.mem_append_right _ (mem_storedFuncRows hm hne hok)

theorem process_funcs_append (fetch : FetchOracle) (osum : SummarizerOracle)
    (ost : StoreOracle) (now : Nat) (github_url : String) (db : DB) :
    ∃ new, (process_repository fetch osum ost now github_url db).2.funcs
      = db.funcs ++ new := by
  cases hp : extract_github_info github_url with
  | none => exact ⟨[], by simp [process_repository, hp]⟩
  | some p =>
    obtain ⟨u, rn⟩ := p
    cases hg : get_repository_data u github_url db with
    | some data => exact ⟨[], by simp [process_repository, hp, hg]⟩
    | none =>
      cases hf : fetch u rn with
      | error e => exact ⟨[], by simp [process_repository, hp, hg, hf]⟩
      | ok fr =>
        by_cases hrok : ost.repoOk u github_url = true
        · refine ⟨storedFuncRows osum ost now github_url (candidateFuncs fr.1), ?_⟩
          simp only [process_repository, hp, hg, hf, hrok, if_true]
          rw [funcLoop_spec]
          simp [store_repo_funcs]
        · exact ⟨[], by simp [process_repository, hp, hg, hf, hrok]⟩

theorem store_repo_key_mem (u url n t s : String) (now : Nat) (db : DB) :
    ∃ r ∈ (store_repository_data u url n t s now db).repos, keyIs u url r = true := by
  cases hf : findRepo u url db.repos with
  | some w =>
    obtain ⟨hm, hk⟩ := findRepo_some_mem hf
    refine ⟨{ w with repo_name := n, tree_structure := t, repo_summary := s, updated_at := now },
      ?_, ?_⟩
    · simp only [store_repository_data, hf]
      exact mem_updateRepoRows_of_key hm hk
    · exact hk
  | none =>
    refine ⟨{ username := u, repo_url := url, repo_name := n, tree_structure := t, repo_summary := s, is_favorite := false, created_at := now, updated_at := now },
      ?_, ?_⟩
    · simp only [store_repository_data, hf]
      exact List.mem_append_right _ (by simp)
    · simp [keyIs]

theorem process_processed_inv {fetch : FetchOracle} {osum : SummarizerOracle}
    {ost : StoreOracle} {now : Nat} {github_url : String} {db : DB}
    {u rn ts rs : String} {n : Nat}
    (h : (process_repository fetch osum ost now github_url db).1
        = ProcResponse.processed u rn ts rs n) :
    extract_github_info github_url = some (u, rn) ∧
    ∃ r ∈ (process_repository fetch osum ost now github_url db).2.repos,
      keyIs u github_url r = true := by
  cases hp : extract_github_info github_url with
  | none => simp [process_repository, hp] at h
  | some p =>
    obtain ⟨u0, rn0⟩ := p
    cases hg : get_repository_data u0 github_url db with
    | some data => simp [process_repository, hp, hg] at h
    | none =>
      cases hf : fetch u0 rn0 with
      | error e => simp [process_repository, hp, hg, hf] at h
      | ok fr =>
        by_cases hrok : ost.repoOk u0 github_url = true
        · have hred : (process_repository fetch osum ost now github_url db).1
              = ProcResponse.processed u0 rn0 fr.2 (repoSummaryOf osum rn0 fr.1)
                  (storedFuncRows osum ost now github_url (candidateFuncs fr.1)).length := by
            simp only [process_repository, hp, hg, hf, hrok, if_true]
            rw [funcLoop_spec]
            simp
          rw [hred] at h
          have hinj := h
          simp only [ProcResponse.processed.injEq] at hinj
          obtain ⟨hu, hrn, -, -, -⟩ := hinj
          subst hu
          subst hrn
          refine ⟨rfl, ?_⟩
          have hrepos : (process_repository fetch osum ost now github_url db).2.repos
              = (store_repository_data u0 github_url rn0 fr.2
                  (repoSummaryOf osum rn0 fr.1) now db).repos := by
            simp only [process_repository, hp, hg, hf, hrok, if_true]
            rw [funcLoop_spec]
          rw [hrepos]
          exact store_repo_key_mem u0 github_url rn0 fr.2 (repoSummaryOf osum rn0 fr.1) now db
        · simp [process_repository, hp, hg, hf, hrok] at h

/-- C1 (amended): processing never removes function rows (the store is
append-only, there is no delete-before-insert), and processing the same
identity key twice in succession is idempotent because a successful
first pass leaves a repository row for the key, which makes any second
pass, under any oracle behavior, a read-only short circuit returning the
stored data with the state unchanged — hence the same record set, the
same count, and identical keyword-search results. -/
theorem process_repeat_idempotent (fetch : FetchOracle) (osum : SummarizerOracle)
    (ost : StoreOracle) (now : Nat) (github_url : String) (db : DB) :
    (∃ new, (process_repository fetch osum ost now github_url db).2.funcs
        = db.funcs ++ new) ∧
    ∀ (u rn ts rs : String) (n : Nat),
      (process_repository fetch osum ost now github_url db).1
          = ProcResponse.processed u rn ts rs n →
      ∀ (fetch2 : FetchOracle) (osum2 : SummarizerOracle) (ost2 : StoreOracle) (now2 : Nat),
        ∃ d, process_repository fetch2 osum2 ost2 now2 github_url
              ((process_repository fetch osum ost now github_url db).2)
          = (ProcResponse.already d u rn,
             (process_repository fetch osum ost now github_url db).2) := by
  refine ⟨process_funcs_append fetch osum ost now github_url db, ?_⟩
  intro u rn ts rs n h fetch2 osum2 ost2 now2
  obtain ⟨hp, r, hr, hk⟩ := process_processed_inv h
  set db2 := (process_repository fetch osum ost now github_url db).2 with hdb2
  obtain ⟨w, hw⟩ := findRepo_isSome_of_mem hr hk
  refine ⟨mkRepoData w, ?_⟩
  have hget : get_repository_data u github_url db2 = some (mkRepoData w) := by
    simp [get_repository_data, hw]
  simp only [process_repository, hp, hget]

/-! ## Lemmas about search -/

theorem mem_insertByCreatedDesc {x y : FuncRow} {l : List FuncRow} :
    x ∈ insertByCreatedDesc y l ↔ x = y ∨ x ∈ l := by
  induction l with
  | nil => simp [insertByCreatedDesc]
  | cons z zs ih =>
    simp only [insertByCreatedDesc]
    split
    · simp [List.mem_cons]
    · simp only [List.mem_cons, ih]
      tauto

theorem mem_sortByCreatedDesc {x : FuncRow} {l : List FuncRow} :
    x ∈ sortByCreatedDesc l ↔ x ∈ l := by
  induction l with
  | nil => simp [sortByCreatedDesc]
  | cons z zs ih => simp [sortByCreatedDesc, mem_insertByCreatedDesc, ih]

/-- C10 (amended): provided the store does not fail before the guarded
block, `search_functions` returns a value and never raises: an empty
token list (empty or all-whitespace query) yields the empty list via the
caught malformed-SQL error, and a store error inside the guarded block
also yields the empty list. (A store failure before the guarded block
propagates; see the counterexample.) -/
theorem search_functions_error_containment (env : SearchEnv) (db : DB)
    (repo_url query : String) (h : env.failBeforeTry = false) :
    (∃ hits, search_functions env db repo_url query = Except.ok hits) ∧
    (queryTokens query = [] → search_functions env db repo_url query = Except.ok []) ∧
    (env.failInTry = true → search_functions env db repo_url query = Except.ok []) := by
  refine ⟨?_, ?_, ?_⟩
  · simp only [search_functions, h, Bool.false_eq_true, if_false]
    split
    · exact ⟨[], rfl⟩
    · exact ⟨_, rfl⟩
  · intro htok
    simp [search_functions, h, htok]
  · intro hin
    simp [search_functions, h, hin]

/-- C4 (amended): with an honestly behaving store and a query with at
least one token, keyword search returns exactly the records of the given
`repo_url` whose keywords text LIKE-matches at least one lowercased
whitespace-split token wrapped in percent signs (SQL LIKE semantics:
`_` matches any one character, `%` any sequence; equal to substring
containment only for wildcard-free tokens). Consequently match is OR
across tokens — a record matching any single token is returned — and
enlarging the token set never removes a result. -/
theorem search_functions_or_semantics (env : SearchEnv) (db : DB) (repo_url query : String)
    (henv1 : env.failBeforeTry = false) (henv2 : env.failInTry = false)
    (htok : ¬ queryTokens query = []) :
    ∃ hits, search_functions env db repo_url query = Except.ok hits ∧
      (∀ hit, hit ∈ hits ↔ ∃ r ∈ db.funcs, r.repo_url = repo_url ∧
        rowMatches (queryTokens query) r = true ∧ hit = projHit r) ∧
      (∀ r ∈ db.funcs, r.repo_url = repo_url →
        (∃ t ∈ queryTokens query, likeMatch (likePatternFor t) r.keywords.data = true) →
        projHit r ∈ hits) ∧
      (∀ query2 : String, (∀ t ∈ queryTokens query, t ∈ queryTokens query2) →
        ¬ queryTokens query2 = [] →
        ∀ hit ∈ hits, ∃ hits2, search_functions env db repo_url query2 = Except.ok hits2 ∧
          hit ∈ hits2) := by
  have hrun : ∀ q : String, ¬ queryTokens q = [] →
      search_functions env db repo_url q = Except.ok
        ((sortByCreatedDesc (db.funcs.filter fun r =>
          r.repo_url == repo_url && rowMatches (queryTokens q) r)).map projHit) := by
    intro q hq
    simp [search_functions, henv1, henv2, hq]
  have hmem : ∀ (q : String) (hit : SearchHit),
      hit ∈ ((sortByCreatedDesc (db.funcs.filter fun r =>
          r.repo_url == repo_url && rowMatches (queryTokens q) r)).map projHit) ↔
        ∃ r ∈ db.funcs, r.repo_url = repo_url ∧
          rowMatches (queryTokens q) r = true ∧ hit = projHit r := by
    intro q hit
    simp only [List.mem_map, mem_sortByCreatedDesc, List.mem_filter, Bool.and_eq_true,
      beq_iff_eq]
    constructor
    · rintro ⟨r, ⟨⟨hm, hu, hmt⟩, hp⟩⟩
      exact ⟨r, hm, hu, hmt, hp.symm⟩
    · rintro ⟨r, hm, hu, hmt, hp⟩
      exact ⟨r, ⟨⟨hm, hu, hmt⟩, hp.symm⟩⟩
  refine ⟨_, hrun query htok, hmem query, ?_, ?_⟩
  · intro r hm hu hex
    rw [hmem query (projHit r)]
    refine ⟨r, hm, hu, ?_, rfl⟩
    simp only [rowMatches, List.any_eq_true]
    exact hex
  · intro query2 hsub htok2 hit hhit
    refine ⟨_, hrun query2 htok2, ?_⟩
    rw [hmem query hit] at hhit
    obtain ⟨r, hm, hu, hmt, hp⟩ := hhit
    rw [hmem query2 hit]
    refine ⟨r, hm, hu, ?_, hp⟩
    simp only [rowMatches, List.any_eq_true] at hmt ⊢
    obtain ⟨t, ht, hl⟩ := hmt
    exact ⟨t, hsub t ht, hl⟩

/-! ## Lemmas about substring occurrence -/

theorem startsList_append_self (l r : List Char) : startsList l (l ++ r) = true := by
  induction l with
  | nil => rfl
  | cons x xs ih => simp [startsList, ih]

theorem startsList_extend {n l : List Char} (b : List Char) (h : startsList n l = true) :
    startsList n (l ++ b) = true := by
  induction n generalizing l with
  | nil => rfl
  | cons x xs ih =>
    cases l with
    | nil => simp [startsList] at h
    | cons y ys =>
      simp only [startsList, Bool.and_eq_true] at h
      simp only [List.cons_append, startsList, Bool.and_eq_true]
      exact ⟨h.1, ih h.2⟩

theorem containsSub_nil_needle (hay : List Char) : containsSub [] hay = true := by
  cases hay <;> simp [containsSub, startsList, List.isEmpty]

theorem containsSub_here (b c : List Char) : containsSub b (b ++ c) = true := by
  cases b with
  | nil => exact containsSub_nil_needle c
  | cons x xs =>
    simp only [List.cons_append, containsSub, Bool.or_eq_true]
    exact Or.inl (startsList_append_self (x :: xs) c)

theorem containsSub_append_left {n b : List Char} (a : List Char)
    (h : containsSub n b = true) : containsSub n (a ++ b) = true := by
  induction a with
  | nil => simpa using h
  | cons x xs ih =>
    simp only [List.cons_append, containsSub, Bool.or_eq_true]
    exact Or.inr ih

theorem containsSub_append_right {n a : List Char} (b : List Char)
    (h : containsSub n a = true) : containsSub n (a ++ b) = true := by
  induction a with
  | nil =>
    simp only [containsSub, List.isEmpty_iff] at h
    subst h
    exact containsSub_nil_needle b
  | cons x xs ih =>
    simp only [containsSub, Bool.or_eq_true] at h
    simp only [List.cons_append, containsSub, Bool.or_eq_true]
    rcases h with h | h
    · exact Or.inl (startsList_extend b h)
    · exact Or.inr (ih h)

theorem str_data_append (s t : String) : (s ++ t).data = s.data ++ t.data := rfl

/-- C3 (amended): on every failure outcome the summarizer returns a
fallback string containing the fixed marker phrase; the unavailability
fallbacks (missing API key and failed client construction) embed the
character length of the input, while the in-call failure fallback embeds
the character length of the content actually sent — the truncated
length when the input exceeds 8000 characters. The embedded function is
total, so no failure path raises. -/
theorem summarize_fallback_marked (content context : String) (o : SummarizerOutcome)
    (hfail : o.isFailure = true) :
    containsSub fallbackMarker.data (summarize_with_openai content context o).data = true ∧
    ((o = SummarizerOutcome.noKey ∨ o = SummarizerOutcome.clientInitFailed) →
      containsSub (Nat.repr content.length).data
        (summarize_with_openai content context o).data = true) ∧
    (∀ msg, o = SummarizerOutcome.apiError msg →
      containsSub (Nat.repr (truncateContent content).length).data
        (summarize_with_openai content context o).data = true) := by
  cases o with
  | okText t => simp [SummarizerOutcome.isFailure] at hfail
  | noKey =>
    refine ⟨?_, fun _ => ?_, fun msg h => by simp at h⟩
    · simp only [summarize_with_openai, str_data_append, List.append_assoc]
      apply containsSub_append_left
      apply containsSub_append_left
      apply containsSub_append_left
      apply containsSub_append_left
      decide
    · simp only [summarize_with_openai, str_data_append, List.append_assoc]
      apply containsSub_append_left
      apply containsSub_append_left
      apply containsSub_append_left
      exact containsSub_here _ _
  | clientInitFailed =>
    refine ⟨?_, fun _ => ?_, fun msg h => by simp at h⟩
    · simp only [summarize_with_openai, str_data_append, List.append_assoc]
      apply containsSub_append_left
      apply containsSub_append_left
      apply containsSub_append_left
      apply containsSub_append_left
      decide
    · simp only [summarize_with_openai, str_data_append, List.append_assoc]
      apply containsSub_append_left
      apply containsSub_append_left
      apply containsSub_append_left
      exact containsSub_here _ _
  | apiError m =>
    refine ⟨?_, fun h => by simp at h, fun msg h => ?_⟩
    · simp only [summarize_with_openai, str_data_append, List.append_assoc]
      apply containsSub_append_left
      apply containsSub_append_left
      apply containsSub_append_left
      apply containsSub_append_left
      apply containsSub_append_right
      decide
    · injection h with hm
      subst hm
      simp only [summarize_with_openai, str_data_append, List.append_assoc]
      apply containsSub_append_left
      apply containsSub_append_left
      apply containsSub_append_left
      exact containsSub_here _ _

/-- C2: a semantic-search request issued while the vector store or the
embedding function was never successfully initialized yields the
declared capability-unavailable condition — a response state distinct
from every non-empty or empty result list and from a generic failure —
and, the embedded operation being total, nothing is raised. -/
theorem semantic_search_unavailable (st : VectorSearchState) (query : String)
    (urlFilter : Option String) (limit : Nat)
    (h : st.vectorStore = none ∨ st.embedFn = none) :
    semantic_search st query urlFilter limit = SemanticSearchResult.capabilityUnavailable ∧
    (∀ hits, SemanticSearchResult.capabilityUnavailable ≠ SemanticSearchResult.results hits) ∧
    (∀ msg, SemanticSearchResult.capabilityUnavailable
      ≠ SemanticSearchResult.genericFailure msg) := by
  refine ⟨?_, fun hits => by simp, fun msg => by simp⟩
  rcases h with h | h
  · cases he : st.embedFn <;> simp [semantic_search, h, he]
  · cases hv : st.vectorStore <;> simp [semantic_search, h, hv]

/-! ## Counterexamples -/

/-- C1 counterexample: from a state holding a function record for the
source_url but no repository row for the key, the ingestion path runs
and inserts the new generation without removing the old record — the
store then holds records of two generations of the same source_url, so
no delete-before-insert exists. -/
theorem process_no_removal_counterexample :
    (process_repository wFetch wOsum wOst 1 wUrl c1Db).2.funcs.length = 2 ∧
    mkFuncRow wUrl "old.py" "oldfn" "def oldfn():" "old summary" 0
      ∈ (process_repository wFetch wOsum wOst 1 wUrl c1Db).2.funcs ∧
    (mkFuncRow wUrl "old.py" "oldfn" "def oldfn():" "old summary" 0).repo_url = wUrl ∧
    (∃ r ∈ (process_repository wFetch wOsum wOst 1 wUrl c1Db).2.funcs,
      r.created_at = 1 ∧ r.repo_url = wUrl) := by
  decide

theorem bigContent_len : bigContent.length = 8001 := by
  show (List.replicate 8001 'a').length = 8001
  exact List.length_replicate 8001 'a'

theorem truncate_big : truncateContent bigContent
    = String.mk (bigContent.data.take 8000) ++ "\n... (content truncated)" := by
  simp only [truncateContent, bigContent_len]
  rw [if_pos (by norm_num)]

theorem truncate_big_len : (truncateContent bigContent).length = 8024 := by
  rw [truncate_big]
  rw [show (String.mk (bigContent.data.take 8000) ++ "\n... (content truncated)").length
      = (bigContent.data.take 8000 ++ "\n... (content truncated)".data).length from rfl]
  rw [List.length_append, List.length_take]
  rw [show bigContent.data.length = 8001 from bigContent_len]
  rw [show ("\n... (content truncated)").data.length = 24 from rfl]
  norm_num

theorem big_result : summarize_with_openai bigContent "ctx" (SummarizerOutcome.apiError "failure")
    = "Summary of ctx: Content processed (8024 characters). AI analysis failed: failure" := by
  simp only [summarize_with_openai, truncate_big_len]
  rfl

/-- C3 counterexample: for an 8001-character input whose summarization
call fails, the fallback string does not embed the character length of
the input (8001): it embeds 8024, the length of the truncated content
that was sent. -/
theorem summarize_length_counterexample :
    (SummarizerOutcome.apiError "failure").isFailure = true ∧
    containsSub (Nat.repr bigContent.length).data
      (summarize_with_openai bigContent "ctx" (SummarizerOutcome.apiError "failure")).data
        = false ∧
    containsSub (Nat.repr (truncateContent bigContent).length).data
      (summarize_with_openai bigContent "ctx" (SummarizerOutcome.apiError "failure")).data
        = true := by
  rw [big_result, bigContent_len, truncate_big_len]
  decide

/-- C4 counterexample: the single-token query `a_c` returns the record
whose keywords text is `abc`, although no query token occurs in that
text as a substring — SQL LIKE treats the underscore as a wildcard, so
the claimed substring characterization of the result set is false. -/
theorem search_like_counterexample :
    queryTokens "a_c" = ["a_c"] ∧
    search_functions { failBeforeTry := false, failInTry := false } c4Db "u1" "a_c"
      = Except.ok [projHit c4Row] ∧
    containsSub "a_c".data c4Row.keywords.data = false :=
  ⟨by decide, by rfl, by decide⟩

/-- C8 counterexample: the summarizer fails for the only candidate
record, yet the record is not skipped — ingestion reports one processed
function and the record is stored, carrying the fallback marker in its
summary field. -/
theorem summarizer_failure_not_skipped :
    (process_repository wFetch wOsumFail wOst 1 wUrl wDb0).1
      = ProcResponse.processed "u" "r" "tree" (repoSummaryOf wOsumFail "r" wDocs) 1 ∧
    (process_repository wFetch wOsumFail wOst 1 wUrl wDb0).2.funcs.length = 1 ∧
    (∃ r ∈ (process_repository wFetch wOsumFail wOst 1 wUrl wDb0).2.funcs,
      r.function_name = "alpha" ∧
      containsSub fallbackMarker.data r.function_summary.data = true) := by
  decide

/-- C10 counterexample: a store error raised by the listing query that
runs before the guarded block propagates out of `search_functions`
instead of being converted to an empty result. -/
theorem search_functions_raises_counterexample :
    search_functions { failBeforeTry := true, failInTry := false } wDb0 "u" "query"
      = Except.error "database error" := by
  rfl

/-! ## Witnesses -/

theorem process_repeat_idempotent_witness :
    ∃ d, process_repository wFetch wOsum wOst 2 wUrl
          ((process_repository wFetch wOsum wOst 1 wUrl wDb0).2)
        = (ProcResponse.already d "u" "r",
           (process_repository wFetch wOsum wOst 1 wUrl wDb0).2) :=
  (process_repeat_idempotent wFetch wOsum wOst 1 wUrl wDb0).2 "u" "r" "tree"
    (repoSummaryOf wOsum "r" wDocs)
    (storedFuncRows wOsum wOst 1 wUrl (candidateFuncs wDocs)).length
    (by decide) wFetch wOsum wOst 2

theorem semantic_search_unavailable_witness :
    semantic_search { vectorStore := none, embedFn := none } "q" none 5
      = SemanticSearchResult.capabilityUnavailable ∧
    (∀ hits, SemanticSearchResult.capabilityUnavailable
      ≠ SemanticSearchResult.results hits) ∧
    (∀ msg, SemanticSearchResult.capabilityUnavailable
      ≠ SemanticSearchResult.genericFailure msg) :=
  semantic_search_unavailable { vectorStore := none, embedFn := none } "q" none 5 (Or.inl rfl)

theorem summarize_fallback_marked_witness :
    containsSub fallbackMarker.data
      (summarize_with_openai "abc" "ctx" SummarizerOutcome.noKey).data = true ∧
    ((SummarizerOutcome.noKey = SummarizerOutcome.noKey ∨
        SummarizerOutcome.noKey = SummarizerOutcome.clientInitFailed) →
      containsSub (Nat.repr ("abc" : String).length).data
        (summarize_with_openai "abc" "ctx" SummarizerOutcome.noKey).data = true) ∧
    (∀ msg, SummarizerOutcome.noKey = SummarizerOutcome.apiError msg →
      containsSub (Nat.repr (truncateContent "abc").length).data
        (summarize_with_openai "abc" "ctx" SummarizerOutcome.noKey).data = true) :=
  summarize_fallback_marked "abc" "ctx" SummarizerOutcome.noKey (by decide)

theorem search_functions_or_semantics_witness :
    ∃ hits, search_functions { failBeforeTry := false, failInTry := false } c4Db "u1" "abc"
        = Except.ok hits ∧
      (∀ hit, hit ∈ hits ↔ ∃ r ∈ c4Db.funcs, r.repo_url = "u1" ∧
        rowMatches (queryTokens "abc") r = true ∧ hit = projHit r) ∧
      (∀ r ∈ c4Db.funcs, r.repo_url = "u1" →
        (∃ t ∈ queryTokens "abc", likeMatch (likePatternFor t) r.keywords.data = true) →
        projHit r ∈ hits) ∧
      (∀ query2 : String, (∀ t ∈ queryTokens "abc", t ∈ queryTokens query2) →
        ¬ queryTokens query2 = [] →
        ∀ hit ∈ hits, ∃ hits2, search_functions { failBeforeTry := false, failInTry := false }
            c4Db "u1" query2 = Except.ok hits2 ∧ hit ∈ hits2) :=
  search_functions_or_semantics { failBeforeTry := false, failInTry := false } c4Db "u1" "abc"
    rfl rfl (by decide)

theorem store_repository_upsert_witness :
    distinctKeys (store_repository_data "u" wUrl "r2" "t2" "s2" 5 w6Db).repos = true ∧
    (store_repository_data "u" wUrl "r2" "t2" "s2" 5 w6Db).funcs = w6Db.funcs ∧
    ((∃ r ∈ w6Db.repos, keyIs "u" wUrl r = true) →
      (store_repository_data "u" wUrl "r2" "t2" "s2" 5 w6Db).repos.length
        = w6Db.repos.length) ∧
    ((∀ r ∈ w6Db.repos, keyIs "u" wUrl r = false) →
      (store_repository_data "u" wUrl "r2" "t2" "s2" 5 w6Db).repos = w6Db.repos ++
        [{ username := "u", repo_url := wUrl, repo_name := "r2", tree_structure := "t2", repo_summary := "s2", is_favorite := false, created_at := 5, updated_at := 5 }]) ∧
    (∀ r ∈ w6Db.repos, keyIs "u" wUrl r = false →
      r ∈ (store_repository_data "u" wUrl "r2" "t2" "s2" 5 w6Db).repos) ∧
    (∀ r ∈ w6Db.repos, keyIs "u" wUrl r = true →
      { r with repo_name := "r2", tree_structure := "t2", repo_summary := "s2", updated_at := 5 }
        ∈ (store_repository_data "u" wUrl "r2" "t2" "s2" 5 w6Db).repos) :=
  store_repository_upsert "u" wUrl "r2" "t2" "s2" 5 w6Db (by decide)

theorem process_fetch_failure_frame_witness :
    process_repository wFetchFail wOsum wOst 1 wUrl wDb0
      = (ProcResponse.errorResp "clone failed", wDb0) ∧
    ∀ (env : SearchEnv) (url2 q : String),
      search_functions env (process_repository wFetchFail wOsum wOst 1 wUrl wDb0).2 url2 q
        = search_functions env wDb0 url2 q :=
  process_fetch_failure_frame wFetchFail wOsum wOst 1 wUrl wDb0 "u" "r" "clone failed"
    rfl rfl rfl

theorem process_record_failure_isolated_witness :
    (process_repository wFetch wOsum wOst 1 wUrl wDb0).1
      = ProcResponse.processed "u" "r" "tree" (repoSummaryOf wOsum "r" wDocs)
          (storedFuncRows wOsum wOst 1 wUrl (candidateFuncs wDocs)).length ∧
    (process_repository wFetch wOsum wOst 1 wUrl wDb0).2.repos
      = (store_repository_data "u" wUrl "r" "tree" (repoSummaryOf wOsum "r" wDocs)
          1 wDb0).repos ∧
    (process_repository wFetch wOsum wOst 1 wUrl wDb0).2.funcs
      = wDb0.funcs ++ storedFuncRows wOsum wOst 1 wUrl (candidateFuncs wDocs) ∧
    ∀ pf ∈ candidateFuncs wDocs, ¬ stripChars pf.2.code.data = [] →
      wOst.funcOk pf.1 pf.2.name = true →
      mkFuncRow wUrl pf.1 pf.2.name pf.2.code
        (summarize_with_openai pf.2.code ("function " ++ pf.2.name ++ " in " ++ pf.1)
          (wOsum pf.2.code ("function " ++ pf.2.name ++ " in " ++ pf.1))) 1
        ∈ (process_repository wFetch wOsum wOst 1 wUrl wDb0).2.funcs :=
  process_record_failure_isolated wFetch wOsum wOst 1 wUrl wDb0 "u" "r" "tree" wDocs
    rfl rfl rfl rfl

theorem process_existing_no_reprocess_witness :
    process_repository wFetch wOsum wOst 7 wUrl w6Db
      = (ProcResponse.already (mkRepoData w6Row) "u" "r", w6Db) :=
  process_existing_no_reprocess wFetch wOsum wOst 7 wUrl w6Db "u" "r" rfl
    (mkRepoData w6Row) rfl

theorem search_functions_error_containment_witness :
    (∃ hits, search_functions { failBeforeTry := false, failInTry := true } wDb0 "u" "q"
        = Except.ok hits) ∧
    (queryTokens "q" = [] →
      search_functions { failBeforeTry := false, failInTry := true } wDb0 "u" "q"
        = Except.ok []) ∧
    (({ failBeforeTry := false, failInTry := true } : SearchEnv).failInTry = true →
      search_functions { failBeforeTry := false, failInTry := true } wDb0 "u" "q"
        = Except.ok []) :=
  search_functions_error_containment { failBeforeTry := false, failInTry := true } wDb0 "u" "q"
    rfl

end RepoAnalyser
